import Mathlib

/-!
Shallow embedding of the metrics-to-geometry computation layer of
`scripts/generate_metrics_svg.py` (function `build_svg` and the display
helper `v`), together with spec-modelled components (signal grader,
streak calculator) that the repository's spec describes but whose code
is not part of the source tree.

All numeric computation is embedded over `ℚ` (Python floats become exact
rationals; the claims under study are stated up to arbitrary rounding of
intermediate shares, so exact rationals are adequate) and `ℤ`/`ℕ` for
integer pixel widths and counts.
-/

namespace MetricsSvg

/-- Python `min` over a non-empty list of naturals (`min(daily_counts)`);
for the empty list we return 0 (the source never calls it on an empty
list, because the empty series is replaced by `[0] * 28` first). -/
def listMin : List ℕ → ℕ
  | [] => 0
  | a :: t => t.foldl min a

/-- Python `max` over a non-empty list of naturals (`max(daily_counts)`). -/
def listMax : List ℕ → ℕ
  | [] => 0
  | a :: t => t.foldl max a

/-- Python 3 `round` to the nearest integer: round-half-to-even
(banker's rounding), applied to an exact rational. -/
def roundHalfEven (q : ℚ) : ℤ :=
  let f := ⌊q⌋
  let r := q - f
  if r < 1 / 2 then f
  else if 1 / 2 < r then f + 1
  else if f % 2 = 0 then f else f + 1

/-- Lines 140-141 of `build_svg`: an empty daily series is replaced by a
zero-filled series of 28 entries (`daily_counts = [0] * 28`). -/
def dailyPrep (daily_counts : List ℕ) : List ℕ :=
  if daily_counts = [] then List.replicate 28 0 else daily_counts

/-- Lines 142-160 of `build_svg`: map the daily-count series onto the
chart rectangle with origin `(x0, y0)`, width `w` and height `h`.
For each index `i` with value `v`:
  `x = x0 + w * i / (n - 1 if n > 1 else 1)`
  `y = y0 + h - h * (v - mn) / (mx - mn)`, overridden to `y0 + h - 1.0`
when the series is flat (`max == min`, in which case the code also sets
`mx = mn + 1` so the division is by 1). -/
def cadencePts (x0 y0 w h : ℚ) (daily_counts : List ℕ) : List (ℚ × ℚ) :=
  let n := daily_counts.length
  let mn := listMin daily_counts
  let mx0 := listMax daily_counts
  let mx := if mx0 = mn then mn + 1 else mx0
  daily_counts.enum.map fun iv =>
    let x := x0 + w * (iv.1 : ℚ) / (((if 1 < n then n - 1 else 1) : ℕ) : ℚ)
    let y := if mx0 = mn then y0 + h - 1
             else y0 + h - h * ((iv.2 : ℚ) - (mn : ℚ)) / ((mx : ℚ) - (mn : ℚ))
    (x, y)

/-- Lines 166-167 of `build_svg`: an empty language list is replaced by
the hard-coded placeholder distribution. -/
def langsPrep (languages : List (String × ℕ)) : List (String × ℕ) :=
  if languages = [] then [("C++", 73), ("CMake", 15), ("Python", 10), ("Other", 2)]
  else languages

/-- Stable insertion for a descending sort by the second component:
`e` is placed before the first element whose magnitude is `≤` its own,
so earlier elements precede later elements of equal magnitude. -/
def insertDesc (e : String × ℕ) : List (String × ℕ) → List (String × ℕ)
  | [] => [e]
  | a :: t => if a.2 ≤ e.2 then e :: a :: t else a :: insertDesc e t

/-- Line 168 of `build_svg`:
`sorted(languages, key=lambda kv: kv[1], reverse=True)` — a stable sort,
descending by byte count. -/
def sortLangsDesc (l : List (String × ℕ)) : List (String × ℕ) :=
  l.foldr insertDesc []

/-- Lines 176-184 of `build_svg`: the width-allocation loop, carrying the
running sum of already-assigned widths.  Every category except the last
gets `rnd(bar_w * pct / 100)`; the last gets `bar_w - running`.  The
rounding function is a parameter so the sum invariant can be proved for
any rounding; the source uses Python `round` (`roundHalfEven`). -/
def allocLoop (rnd : ℚ → ℤ) (bar_w : ℤ) : List ℚ → ℤ → List ℤ
  | [], _ => []
  | [_], running => [bar_w - running]
  | p :: q :: ps, running =>
      let wi := rnd ((bar_w : ℚ) * p / 100)
      wi :: allocLoop rnd bar_w (q :: ps) (running + wi)

/-- The allocation loop started with `running = 0`. -/
def allocWidths (rnd : ℚ → ℤ) (bar_w : ℤ) (pcts : List ℚ) : List ℤ :=
  allocLoop rnd bar_w pcts 0

/-- Line 169 of `build_svg`: `total = sum(v for _, v in langs) or 1` —
the sum of the displayed magnitudes, with a zero sum replaced by 1. -/
def langTotal (langs : List (String × ℕ)) : ℕ :=
  let s := (langs.map Prod.snd).sum
  if s = 0 then 1 else s

/-- Line 170 of `build_svg`:
`langs_pct = [(name, v * 100 / total) for name, v in langs]`
(only the numeric component is kept; the name travels alongside in the
source and plays no role in the width computation). -/
def langPcts (langs : List (String × ℕ)) : List ℚ :=
  langs.map fun kv => (kv.2 : ℚ) * 100 / (langTotal langs : ℚ)

/-- Lines 166-184 of `build_svg` end to end: placeholder substitution,
stable descending sort, truncation to the top 4, percentage computation,
and width allocation with Python rounding over the fixed bar width
640. -/
def buildLangWidths (languages : List (String × ℕ)) : List ℤ :=
  allocWidths roundHalfEven 640 (langPcts ((sortLangsDesc (langsPrep languages)).take 4))

/-- Lines 211-212 of `build_svg`: `str(values.get(k, "—"))` — a present
value is rendered as its plain decimal string, an absent one as the
em-dash placeholder. -/
def displayValue (x : Option ℕ) : String :=
  match x with
  | some n => toString n
  | none => "—"

/-- Modelled from the spec: the SignalGrader component is not present in
the source tree (only this rendering script is); per the spec,
`score = min(1, activeDays/200) * 0.60 + min(1, totalContributions/2000) * 0.40`. -/
def signalScore (activeDays totalContributions : ℕ) : ℚ :=
  min 1 ((activeDays : ℚ) / 200) * (60 / 100)
    + min 1 ((totalContributions : ℚ) / 2000) * (40 / 100)

/-- Modelled from the spec: grade by descending inclusive thresholds,
first match wins: `>= 0.90 -> "A+", >= 0.80 -> "A", >= 0.65 -> "B",
>= 0.50 -> "C", else "D"`. -/
def signalGrade (activeDays totalContributions : ℕ) : String :=
  let s := signalScore activeDays totalContributions
  if 90 / 100 ≤ s then "A+"
  else if 80 / 100 ≤ s then "A"
  else if 65 / 100 ≤ s then "B"
  else if 50 / 100 ≤ s then "C"
  else "D"

/-- Modelled from the spec: the StreakCalculator result record
(current streak, longest streak, optional start/end dates of the
longest run).  Dates are kept abstract in the type parameter. -/
structure StreakResult (α : Type) where
  currentStreak : ℕ
  longestStreak : ℕ
  longestStart : Option α
  longestEnd : Option α
deriving DecidableEq, Repr

/-- Modelled from the spec: the backward scan for the current streak —
"scan from the most recent entry backward, counting consecutive entries
with count > 0, stopping at the first zero-count entry or series start".
This helper consumes the series already reversed (most recent first). -/
def trailingRun {α : Type} : List (α × ℕ) → ℕ
  | [] => 0
  | e :: t => if 0 < e.2 then trailingRun t + 1 else 0

/-- Modelled from the spec: the forward-scan state for the longest
streak — the running consecutive-nonzero counter with its start date,
and the best (longest) run recorded so far with its start/end dates. -/
structure ScanState (α : Type) where
  run : ℕ
  runStart : Option α
  best : ℕ
  bestStart : Option α
  bestEnd : Option α
deriving DecidableEq, Repr

/-- Modelled from the spec: one step of the forward pass — on a nonzero
count, extend the run (recording its start date on a 0 -> 1 transition)
and update the best run only when a STRICTLY new maximum is reached
(ties keep the first-found maximum); on a zero count, reset the run. -/
def streakStep {α : Type} (st : ScanState α) (e : α × ℕ) : ScanState α :=
  if 0 < e.2 then
    let runStart := if st.run = 0 then some e.1 else st.runStart
    let run := st.run + 1
    if st.best < run then ⟨run, runStart, run, runStart, some e.1⟩
    else ⟨run, runStart, st.best, st.bestStart, st.bestEnd⟩
  else ⟨0, none, st.best, st.bestStart, st.bestEnd⟩

/-- Modelled from the spec: the full StreakCalculator — a single forward
pass for the longest streak and a backward scan for the current streak,
over a chronologically ascending series of (date, count) pairs. -/
def streakResult {α : Type} (s : List (α × ℕ)) : StreakResult α :=
  let fin := s.foldl streakStep ⟨0, none, 0, none, none⟩
  ⟨trailingRun s.reverse, fin.best, fin.bestStart, fin.bestEnd⟩

/-! ### Helper lemmas -/

theorem allocLoop_sum (rnd : ℚ → ℤ) (bw : ℤ) :
    ∀ (pcts : List ℚ) (r : ℤ), pcts ≠ [] → (allocLoop rnd bw pcts r).sum = bw - r
  | [], _, hne => absurd rfl hne
  | [_], _, _ => by simp [allocLoop]
  | p :: q :: ps, r, _ => by
      have ih := allocLoop_sum rnd bw (q :: ps) (r + rnd ((bw : ℚ) * p / 100)) (by simp)
      simp only [allocLoop, List.sum_cons, ih]
      ring

theorem allocLoop_length (rnd : ℚ → ℤ) (bw : ℤ) :
    ∀ (pcts : List ℚ) (r : ℤ), (allocLoop rnd bw pcts r).length = pcts.length
  | [], _ => rfl
  | [_], _ => rfl
  | p :: q :: ps, r => by
      simp only [allocLoop, List.length_cons,
        allocLoop_length rnd bw (q :: ps) (r + rnd ((bw : ℚ) * p / 100))]

theorem allocLoop_getD (rnd : ℚ → ℤ) (bw : ℤ) :
    ∀ (pcts : List ℚ) (r : ℤ) (i : ℕ), i + 1 < pcts.length →
      (allocLoop rnd bw pcts r).getD i 0 = rnd ((bw : ℚ) * pcts.getD i 0 / 100)
  | [], _, i, h => by simp at h
  | [_], _, i, h => by simp at h
  | p :: q :: ps, r, 0, _ => by simp [allocLoop]
  | p :: q :: ps, r, i + 1, h => by
      have ih := allocLoop_getD rnd bw (q :: ps) (r + rnd ((bw : ℚ) * p / 100)) i
        (by simpa using h)
      simpa [allocLoop] using ih

theorem allocLoop_last (rnd : ℚ → ℤ) (bw : ℤ) :
    ∀ (pcts : List ℚ) (r : ℤ), pcts ≠ [] →
      (allocLoop rnd bw pcts r).getD (pcts.length - 1) 0
        = bw - r - ((allocLoop rnd bw pcts r).take (pcts.length - 1)).sum
  | [], _, hne => absurd rfl hne
  | [_], _, _ => by simp [allocLoop]
  | p :: q :: ps, r, _ => by
      have ih := allocLoop_last rnd bw (q :: ps) (r + rnd ((bw : ℚ) * p / 100)) (by simp)
      simp only [allocLoop, List.length_cons, Nat.add_sub_cancel, List.getD_cons_succ,
        List.take_succ_cons, List.sum_cons] at ih ⊢
      rw [ih]
      ring

theorem cadencePts_length (x0 y0 w h : ℚ) (counts : List ℕ) :
    (cadencePts x0 y0 w h counts).length = counts.length := by
  simp [cadencePts]

theorem cadencePts_flat (x0 y0 w h : ℚ) (counts : List ℕ)
    (hflat : listMax counts = listMin counts) :
    ∀ p ∈ cadencePts x0 y0 w h counts, p.2 = y0 + h - 1 := by
  intro p hp
  simp only [cadencePts, List.mem_map] at hp
  obtain ⟨iv, _, rfl⟩ := hp
  simp [hflat]

theorem listMin_eq_listMax_of_len_le_one (l : List ℕ) (hl : l.length ≤ 1) :
    listMin l = listMax l := by
  match l with
  | [] => rfl
  | [_] => rfl
  | _ :: _ :: _ => simp at hl

theorem two_le_length_of_min_ne_max (l : List ℕ) (hne : listMin l ≠ listMax l) :
    2 ≤ l.length := by
  by_contra hlt
  exact hne (listMin_eq_listMax_of_len_le_one l (by omega))

theorem cadencePts_getD_of_ne (x0 y0 w h : ℚ) (counts : List ℕ)
    (hne : listMax counts ≠ listMin counts) (i : ℕ) (hi : i < counts.length) :
    (cadencePts x0 y0 w h counts).getD i (0, 0)
      = (x0 + w * (i : ℚ) / ((counts.length : ℚ) - 1),
         y0 + h - h * ((counts.get ⟨i, hi⟩ : ℚ) - (listMin counts : ℚ))
           / ((listMax counts : ℚ) - (listMin counts : ℚ))) := by
  have hlen : 2 ≤ counts.length :=
    two_le_length_of_min_ne_max counts (fun hmm => hne hmm.symm)
  have hi2 : i < (cadencePts x0 y0 w h counts).length := by
    rw [cadencePts_length]; exact hi
  rw [List.getD_eq_getElem _ _ hi2]
  simp only [cadencePts, List.getElem_map, List.getElem_enum, hne, if_false,
    if_pos (by omega : 1 < counts.length)]
  simp only [Nat.cast_sub (by omega : 1 ≤ counts.length), Nat.cast_one,
    List.get_eq_getElem]

theorem cadencePts_singleton (x0 y0 w h : ℚ) (c : ℕ) :
    cadencePts x0 y0 w h [c] = [(x0, y0 + h - 1)] := by
  simp [cadencePts, listMin, listMax, List.enum]

theorem roundHalfEven_zero : roundHalfEven 0 = 0 := by
  norm_num [roundHalfEven]

theorem allocLoop_replicate_zero (rnd : ℚ → ℤ) (bw : ℤ) (h0 : rnd 0 = 0) :
    ∀ (k : ℕ) (r : ℤ), allocLoop rnd bw (List.replicate (k + 1) 0) r
      = List.replicate k 0 ++ [bw - r]
  | 0, r => by simp [allocLoop]
  | k + 1, r => by
      have ih := allocLoop_replicate_zero rnd bw h0 k r
      rw [List.replicate_succ] at ih
      rw [List.replicate_succ, List.replicate_succ]
      simp only [allocLoop, mul_zero, zero_div, h0, add_zero]
      rw [ih, List.replicate_succ]
      simp

theorem langPcts_length (langs : List (String × ℕ)) :
    (langPcts langs).length = langs.length := by
  simp [langPcts]

theorem langPcts_getD (langs : List (String × ℕ)) (i : ℕ) (hi : i < langs.length) :
    (langPcts langs).getD i 0
      = ((langs.getD i ("", 0)).2 : ℚ) * 100 / (langTotal langs : ℚ) := by
  rw [List.getD_eq_getElem _ _ (by rw [langPcts_length]; exact hi),
      List.getD_eq_getElem _ _ hi]
  simp [langPcts]

theorem langPcts_of_zero_sum (langs : List (String × ℕ))
    (hz : (langs.map Prod.snd).sum = 0) :
    langPcts langs = List.replicate langs.length 0 := by
  refine List.eq_replicate_iff.mpr ⟨langPcts_length langs, ?_⟩
  intro b hb
  simp only [langPcts, List.mem_map] at hb
  obtain ⟨kv, hkv, rfl⟩ := hb
  have hv : kv.2 = 0 :=
    (List.sum_eq_zero_iff.mp hz) _ (List.mem_map_of_mem Prod.snd hkv)
  simp [hv]

theorem trailingRun_eq_takeWhile {α : Type} :
    ∀ l : List (α × ℕ),
      trailingRun l = (l.takeWhile fun e => decide (0 < e.2)).length
  | [] => rfl
  | e :: t => by
      by_cases hp : 0 < e.2 <;>
        simp [trailingRun, List.takeWhile_cons, hp, trailingRun_eq_takeWhile t]

/-! ### Claim theorems -/

/-- Claim C1: for every non-empty (category, magnitude) list and the fixed
total bar width 640, each of the first K-1 output widths equals the
rounding of its proportional share `640 * magnitude / sum-of-magnitudes`,
the last output width equals exactly 640 minus the sum of all preceding
widths, and consequently the widths sum to exactly 640, for any rounding
function applied to the intermediate shares. -/
theorem C1_stacked_sum_invariant (rnd : ℚ → ℤ) (langs : List (String × ℕ))
    (hne : langs ≠ []) :
    (∀ i, i + 1 < langs.length →
      (allocWidths rnd 640 (langPcts langs)).getD i 0
        = rnd (640 * ((langs.getD i ("", 0)).2 : ℚ) / (langTotal langs : ℚ)))
    ∧ (allocWidths rnd 640 (langPcts langs)).getD (langs.length - 1) 0
        = 640 - ((allocWidths rnd 640 (langPcts langs)).take (langs.length - 1)).sum
    ∧ (allocWidths rnd 640 (langPcts langs)).sum = 640 := by
  have hne2 : langPcts langs ≠ [] := by
    intro hc
    exact hne (List.length_eq_zero.mp (by rw [← langPcts_length langs, hc]; rfl))
  refine ⟨?_, ?_, ?_⟩
  · intro i hi
    rw [allocWidths, allocLoop_getD rnd 640 _ _ i (by rw [langPcts_length]; exact hi),
        langPcts_getD langs i (by omega)]
    congr 1
    ring
  · have hlast := allocLoop_last rnd 640 (langPcts langs) 0 hne2
    rw [langPcts_length] at hlast
    rw [allocWidths, hlast]
    ring
  · rw [allocWidths, allocLoop_sum rnd 640 _ 0 hne2]
    ring

/-- Witness for C1 at `rnd` = Python rounding and the concrete list
`[("A", 3), ("B", 1)]`. -/
theorem C1_stacked_sum_invariant_witness :
    ([("A", 3), ("B", 1)] : List (String × ℕ)) ≠ []
      ∧ (allocWidths roundHalfEven 640 (langPcts [("A", 3), ("B", 1)])).sum = 640 :=
  ⟨by decide,
   (C1_stacked_sum_invariant roundHalfEven [("A", 3), ("B", 1)] (by decide)).2.2⟩

/-- Claim C2: for every non-empty daily-count series whose samples are all
equal (max = min), every output point's y-coordinate equals `y0 + h - 1`,
one unit above the rectangle's bottom edge `y0 + h`. -/
theorem C2_flat_series_floor (x0 y0 w h : ℚ) (counts : List ℕ)
    (hne : counts ≠ []) (hflat : listMax counts = listMin counts) :
    (cadencePts x0 y0 w h counts).length = counts.length
    ∧ cadencePts x0 y0 w h counts ≠ []
    ∧ ∀ p ∈ cadencePts x0 y0 w h counts, p.2 = y0 + h - 1 := by
  refine ⟨cadencePts_length x0 y0 w h counts, ?_, cadencePts_flat x0 y0 w h counts hflat⟩
  intro hc
  exact hne (List.length_eq_zero.mp (by rw [← cadencePts_length x0 y0 w h counts, hc]; rfl))

/-- Witness for C2 at the concrete constant series `[2, 2, 2]` and the
source's concrete chart rectangle. -/
theorem C2_flat_series_floor_witness :
    (([2, 2, 2] : List ℕ) ≠ [] ∧ listMax [2, 2, 2] = listMin [2, 2, 2])
      ∧ ∀ p ∈ cadencePts 18 56 304 174 [2, 2, 2], p.2 = 56 + 174 - 1 :=
  ⟨⟨by decide, by decide⟩,
   (C2_flat_series_floor 18 56 304 174 [2, 2, 2] (by decide) (by decide)).2.2⟩

/-- Claim C3: for every series with at least two distinct values
(max ≠ min), the i-th output point is
`(x0 + w * i / (n - 1), y0 + h - h * (v - min) / (max - min))` — x evenly
spaced in sample order, y by linear interpolation — so the minimum sample
maps to the bottom edge `y0 + h` and the maximum sample to the top edge
`y0`. -/
theorem C3_linear_scale (x0 y0 w h : ℚ) (counts : List ℕ)
    (hne : listMax counts ≠ listMin counts) :
    ∀ i (hi : i < counts.length),
      (cadencePts x0 y0 w h counts).getD i (0, 0)
        = (x0 + w * (i : ℚ) / ((counts.length : ℚ) - 1),
           y0 + h - h * ((counts.get ⟨i, hi⟩ : ℚ) - (listMin counts : ℚ))
             / ((listMax counts : ℚ) - (listMin counts : ℚ)))
      ∧ (counts.get ⟨i, hi⟩ = listMin counts →
          ((cadencePts x0 y0 w h counts).getD i (0, 0)).2 = y0 + h)
      ∧ (counts.get ⟨i, hi⟩ = listMax counts →
          ((cadencePts x0 y0 w h counts).getD i (0, 0)).2 = y0) := by
  intro i hi
  have key := cadencePts_getD_of_ne x0 y0 w h counts hne i hi
  have hd : (listMax counts : ℚ) - (listMin counts : ℚ) ≠ 0 := by
    intro hc
    exact hne (by exact_mod_cast sub_eq_zero.mp hc)
  refine ⟨key, ?_, ?_⟩
  · intro hmin
    rw [key, hmin]
    simp
  · intro hmax
    rw [key]
    simp only [hmax]
    rw [mul_div_assoc, div_self hd, mul_one]
    ring

/-- Witness for C3 at the spec's own example series `[0, 10]`: the point
for the maximum value 10 has y equal to the top edge `y0 = 56`. -/
theorem C3_linear_scale_witness :
    listMax [0, 10] ≠ listMin [0, 10]
      ∧ ((cadencePts 18 56 304 174 [0, 10]).getD 1 (0, 0)).2 = 56 := by
  refine ⟨by decide, ?_⟩
  have h := C3_linear_scale 18 56 304 174 [0, 10] (by decide) 1 (by decide)
  exact h.2.2 (by decide)

/-- Claim C4 counterexample: for the singleton series `[5]` and the
source's chart rectangle (`x0 = 18`, `w = 304`), the single output point
has x-coordinate 18 — the rectangle's LEFT edge — not the horizontal
midpoint `x0 + w / 2 = 170` the claim asserts. -/
theorem C4_counterexample :
    ((cadencePts 18 56 304 174 [5]).getD 0 (0, 0)).1 ≠ 18 + 304 / 2 := by
  norm_num [cadencePts, listMin, listMax, List.enum]

/-- Claim C4 amended: for every series of length exactly 1 the spacing
denominator is floored at 1 (so there is no division by zero), and the
single output point is placed at the rectangle's LEFT edge `x = x0`
(the numerator `w * 0` vanishes), at the flat-line height `y0 + h - 1`. -/
theorem C4_singleton_left_edge (x0 y0 w h : ℚ) (counts : List ℕ)
    (hone : counts.length = 1) :
    cadencePts x0 y0 w h counts = [(x0, y0 + h - 1)] := by
  obtain ⟨c, rfl⟩ := List.length_eq_one.mp hone
  exact cadencePts_singleton x0 y0 w h c

/-- Witness for the amended C4 at the singleton series `[7]`. -/
theorem C4_singleton_left_edge_witness :
    ([7] : List ℕ).length = 1 ∧ cadencePts 18 56 304 174 [7] = [(18, 229)] := by
  refine ⟨by decide, ?_⟩
  have h := C4_singleton_left_edge 18 56 304 174 [7] (by decide)
  rw [h]
  norm_num

/-- Claim C5: the `or 1` guard makes the division-by-zero branch
unreachable for every input; for a non-empty magnitude list summing to
zero the guarded total is 1 and the allocation degenerates to all zeros
except the last width, which is the full 640. -/
theorem C5_zero_sum_degenerate (langs : List (String × ℕ)) (hne : langs ≠ [])
    (hz : (langs.map Prod.snd).sum = 0) :
    (∀ l : List (String × ℕ), langTotal l ≠ 0)
    ∧ langTotal langs = 1
    ∧ allocWidths roundHalfEven 640 (langPcts langs)
        = List.replicate (langs.length - 1) 0 ++ [640] := by
  refine ⟨?_, ?_, ?_⟩
  · intro l
    by_cases hs : (l.map Prod.snd).sum = 0 <;> simp [langTotal, hs]
  · simp [langTotal, hz]
  · rw [langPcts_of_zero_sum langs hz]
    obtain ⟨k, hk⟩ : ∃ k, langs.length = k + 1 := by
      cases langs with
      | nil => exact absurd rfl hne
      | cons a t => exact ⟨t.length, rfl⟩
    rw [hk, allocWidths, allocLoop_replicate_zero roundHalfEven 640 roundHalfEven_zero k 0]
    simp

/-- Witness for C5 at the concrete all-zero list `[("A", 0), ("B", 0)]`. -/
theorem C5_zero_sum_degenerate_witness :
    (([("A", 0), ("B", 0)] : List (String × ℕ)) ≠ []
        ∧ ((([("A", 0), ("B", 0)] : List (String × ℕ)).map Prod.snd).sum = 0))
      ∧ allocWidths roundHalfEven 640 (langPcts [("A", 0), ("B", 0)])
          = List.replicate 1 0 ++ [640] :=
  ⟨⟨by decide, by decide⟩, by
    have h := (C5_zero_sum_degenerate [("A", 0), ("B", 0)] (by decide) (by decide)).2.2
    simpa using h⟩

/-- Claim C6: an empty daily series is replaced by a zero-filled series of
28 entries, the prepared series always has at least one sample, and the
zero-filled replacement renders as the flat line at `y0 + h - 1`. -/
theorem C6_empty_series_fallback (x0 y0 w h : ℚ) :
    dailyPrep [] = List.replicate 28 0
    ∧ (∀ counts : List ℕ, 1 ≤ (dailyPrep counts).length)
    ∧ (cadencePts x0 y0 w h (dailyPrep [])).length = 28
    ∧ ∀ p ∈ cadencePts x0 y0 w h (dailyPrep []), p.2 = y0 + h - 1 := by
  refine ⟨rfl, ?_, ?_, ?_⟩
  · intro counts
    by_cases hc : counts = []
    · subst hc; simp [dailyPrep]
    · simp only [dailyPrep, if_neg hc]
      exact List.length_pos.mpr hc
  · rw [cadencePts_length]; rfl
  · exact cadencePts_flat x0 y0 w h _ (by decide)

theorem digitChar_ne_dot (k : ℕ) (hk : k < 10) : Nat.digitChar k ≠ '.' := by
  interval_cases k <;> decide

theorem toDigitsCore_mem_dot :
    ∀ (f n : ℕ) (acc : List Char), '.' ∈ Nat.toDigitsCore 10 f n acc → '.' ∈ acc
  | 0, _, _, hm => hm
  | f + 1, n, acc, hm => by
      simp only [Nat.toDigitsCore] at hm
      by_cases hz : n / 10 = 0
      · rw [if_pos hz] at hm
        rcases List.mem_cons.mp hm with hc | hc
        · exact absurd hc.symm (digitChar_ne_dot _ (Nat.mod_lt n (by norm_num)))
        · exact hc
      · rw [if_neg hz] at hm
        have hrec := toDigitsCore_mem_dot f (n / 10) (Nat.digitChar (n % 10) :: acc) hm
        rcases List.mem_cons.mp hrec with hc | hc
        · exact absurd hc.symm (digitChar_ne_dot _ (Nat.mod_lt n (by norm_num)))
        · exact hc

theorem repr_no_dot (n : ℕ) : '.' ∉ (Nat.repr n).toList := by
  intro hm
  rw [Nat.repr, List.toList_asString] at hm
  have hmem := toDigitsCore_mem_dot (n + 1) n [] (by simpa [Nat.toDigits] using hm)
  simp at hmem

/-- Claim C7 counterexample: the source's display helper is a plain `str`
conversion, so 1000 renders as "1000" and not as the abbreviated "1k"
the claim asserts (and 2500 renders as "2500", not "2.5k"). -/
theorem C7_counterexample :
    displayValue (some 1000) = "1000" ∧ displayValue (some 1000) ≠ "1k"
      ∧ displayValue (some 2500) ≠ "2.5k" := by
  refine ⟨by decide, by decide, by decide⟩

/-- Claim C7 amended: every present non-negative integer renders as its
plain decimal string (no thousands/millions abbreviation of any kind), an
absent value renders as the em-dash placeholder, and no output for a
present value ever contains a dot (in particular never ".0"). -/
theorem C7_plain_decimal (n : ℕ) (x : Option ℕ) (hx : x = some n) :
    displayValue x = toString n
    ∧ displayValue none = "—"
    ∧ ('.' ∉ (displayValue x).toList)
    ∧ displayValue (some 999) = "999"
    ∧ displayValue (some 1000) = "1000"
    ∧ displayValue (some 2500) = "2500"
    ∧ displayValue (some 1500000) = "1500000" := by
  subst hx
  refine ⟨rfl, rfl, repr_no_dot n, by decide, by decide, by decide, by decide⟩

/-- Witness for the amended C7 at `n = 2500`. -/
theorem C7_plain_decimal_witness :
    (some 2500 = some 2500) ∧ displayValue (some 2500) = toString 2500 :=
  ⟨rfl, (C7_plain_decimal 2500 (some 2500) rfl).1⟩

/-- Claim C8 (modelled from the spec: the SignalGrader code is not in the
source tree): the score `min(1, a/200) * 0.60 + min(1, c/2000) * 0.40`
lies in [0, 1] and is monotone in both inputs, and the descending
threshold grading yields "A+" at (200, 2000) and "D" at (0, 0). -/
theorem C8_signal_grading (a c a2 c2 : ℕ) (ha : a ≤ a2) (hc : c ≤ c2) :
    (0 ≤ signalScore a c ∧ signalScore a c ≤ 1)
    ∧ signalScore a c ≤ signalScore a2 c2
    ∧ signalGrade 200 2000 = "A+"
    ∧ signalGrade 0 0 = "D" := by
  have hmin1 : (0 : ℚ) ≤ min 1 ((a : ℚ) / 200) := le_min (by norm_num) (by positivity)
  have hmin2 : (0 : ℚ) ≤ min 1 ((c : ℚ) / 2000) := le_min (by norm_num) (by positivity)
  have hub1 : min 1 ((a : ℚ) / 200) ≤ 1 := min_le_left _ _
  have hub2 : min 1 ((c : ℚ) / 2000) ≤ 1 := min_le_left _ _
  refine ⟨⟨?_, ?_⟩, ?_, ?_, ?_⟩
  · unfold signalScore
    nlinarith
  · unfold signalScore
    nlinarith
  · unfold signalScore
    have ha2 : (a : ℚ) ≤ (a2 : ℚ) := by exact_mod_cast ha
    have hc2 : (c : ℚ) ≤ (c2 : ℚ) := by exact_mod_cast hc
    gcongr
  · norm_num [signalGrade, signalScore]
  · norm_num [signalGrade, signalScore]

/-- Witness for C8 at `(a, c) = (0, 0) ≤ (a2, c2) = (200, 2000)`. -/
theorem C8_signal_grading_witness :
    ((0 : ℕ) ≤ 200 ∧ (0 : ℕ) ≤ 2000)
      ∧ signalGrade 200 2000 = "A+" ∧ signalGrade 0 0 = "D" :=
  ⟨⟨by decide, by decide⟩,
   (C8_signal_grading 0 0 200 2000 (by decide) (by decide)).2.2⟩

/-- Claim C9 (modelled from the spec: the StreakCalculator code is not in
the source tree): the current streak is the trailing run of nonzero
counts (backward scan = takeWhile on the reversed series); the series
`[1,1,1,0,1,1]` yields current streak 2 and longest streak 3 with the
start/end of the first three entries; a tie between equal-length runs is
won by the earliest run; the empty and all-zero series yield
`(0, 0, none, none)`. -/
theorem C9_streaks :
    streakResult ([] : List (String × ℕ)) = ⟨0, 0, none, none⟩
    ∧ streakResult [("a", 0), ("b", 0), ("c", 0)] = ⟨0, 0, none, none⟩
    ∧ streakResult [("d1", 1), ("d2", 1), ("d3", 1), ("d4", 0), ("d5", 1), ("d6", 1)]
        = ⟨2, 3, some "d1", some "d3"⟩
    ∧ streakResult [("e1", 1), ("e2", 1), ("e3", 0), ("e4", 1), ("e5", 1)]
        = ⟨2, 2, some "e1", some "e2"⟩
    ∧ ∀ s : List (String × ℕ),
        (streakResult s).currentStreak
          = (s.reverse.takeWhile fun e => decide (0 < e.2)).length := by
  refine ⟨by decide, by decide, by decide, by decide, fun s => ?_⟩
  simpa [streakResult] using trailingRun_eq_takeWhile s.reverse

/-- Claim C10: an empty aggregated language list is replaced by the
hard-coded placeholder distribution, which survives sorting and top-4
truncation unchanged, and the resulting bar allocation is the strictly
positive breakdown [467, 96, 64, 13] — identical to running the pipeline
directly on the placeholder. -/
theorem C10_placeholder_distribution :
    langsPrep [] = [("C++", 73), ("CMake", 15), ("Python", 10), ("Other", 2)]
    ∧ (sortLangsDesc (langsPrep [])).take 4
        = [("C++", 73), ("CMake", 15), ("Python", 10), ("Other", 2)]
    ∧ buildLangWidths [] = [467, 96, 64, 13]
    ∧ buildLangWidths []
        = buildLangWidths [("C++", 73), ("CMake", 15), ("Python", 10), ("Other", 2)]
    ∧ ∀ wi ∈ buildLangWidths [], 0 < wi := by
  have hw : buildLangWidths [] = [467, 96, 64, 13] := by
    norm_num [buildLangWidths, sortLangsDesc, langsPrep, insertDesc, langPcts, langTotal,
      allocWidths, allocLoop, roundHalfEven]
  have hsub : langsPrep [("C++", 73), ("CMake", 15), ("Python", 10), ("Other", 2)]
      = langsPrep [] := by decide
  refine ⟨by decide, by decide, hw, ?_, ?_⟩
  · simp only [buildLangWidths, hsub]
  · intro wi hwi
    rw [hw] at hwi
    rcases List.mem_cons.mp hwi with rfl | hwi
    · norm_num
    rcases List.mem_cons.mp hwi with rfl | hwi
    · norm_num
    rcases List.mem_cons.mp hwi with rfl | hwi
    · norm_num
    rcases List.mem_cons.mp hwi with rfl | hwi
    · norm_num
    · simp at hwi

end MetricsSvg
